import Mathlib

/-!
# Verification of the fvtt-mcp relay core

A shallow embedding of the client connection registry (`ClientManager`,
`src/oAuth.ts`), the client wrapper (`Client`, `src/core/Client.ts`), the
pending-request correlation table used by the route layer
(`src/routes/route-helpers.ts`, `src/routes/api.ts`), and the WebSocket
admission logic (`src/routes/websocket.ts`).

JavaScript `Map` objects are embedded as association lists with unique keys:
`mfind` is `Map.get`, `mset` is `Map.set` (replacing in place, preserving
insertion order, as JS does), and `mdel` is `Map.delete` (modelled as a
filter, which agrees with JS on maps whose keys are unique — the only maps
the program ever builds).  JS `Set` objects are embedded as duplicate-free
lists (`Set.add` appends only when absent, `Set.delete` filters).
-/

namespace FvttMcp

/-- Lookup in an association list, mirroring `Map.get`: the value of the
first binding whose key matches, if any. -/
def mfind (k : String) : List (String × α) → Option α
  | [] => none
  | (k₂, v) :: rest => if k₂ = k then some v else mfind k rest

/-- Update in an association list, mirroring `Map.set`: replace the first
binding of the key in place, or append a new binding at the end. -/
def mset (k : String) (v : α) : List (String × α) → List (String × α)
  | [] => [(k, v)]
  | (k₂, v₂) :: rest => if k₂ = k then (k, v) :: rest else (k₂, v₂) :: mset k v rest

/-- Deletion from an association list, mirroring `Map.delete` on maps with
unique keys: drop every binding of the key. -/
def mdel (k : String) : List (String × α) → List (String × α)
  | [] => []
  | (k₂, v) :: rest => if k₂ = k then mdel k rest else (k₂, v) :: mdel k rest

/-! ## The `Client` wrapper (`src/core/Client.ts`)

A `Client` holds the WebSocket, identity, group token (`apiKey`), liveness
bookkeeping and free-form metadata.  The WebSocket itself is embedded by the
one observation the code makes of it, `ws.readyState === WebSocket.OPEN`
(field `wsOpen`); whether a given `ws.send` call throws is supplied as an
explicit `writeOk : Bool` argument, since the embedding cannot model the
socket's internal failure state. -/

structure ClientData where
  id : String
  apiKey : String
  lastSeen : Int
  connectedSince : Int
  connected : Bool
  wsOpen : Bool
  worldId : Option String
  worldTitle : Option String
  foundryVersion : Option String
  systemId : Option String
  systemTitle : Option String
  systemVersion : Option String
  customName : Option String
  deriving DecidableEq, Repr

/-- Liveness check of `Client.isAlive`: the client has not been marked
disconnected and the transport reports `OPEN`. -/
def clientIsAlive (c : ClientData) : Bool :=
  c.connected && c.wsOpen

/-- Embedding of `Client.send`.  The source returns `false` without writing
when `isAlive()` is false; otherwise it writes inside a `try`, returning
`true` on success and, when the write throws (`writeOk = false`), setting
`connected` to `false` and returning `false`.  The result is the updated
client paired with the boolean the method returns; the method never
throws because the write is wrapped in `try`/`catch`. -/
def clientSend (c : ClientData) (writeOk : Bool) : ClientData × Bool :=
  if clientIsAlive c then
    if writeOk then (c, true)
    else ({ c with connected := false }, false)
  else (c, false)

/-! ## The `ClientManager` registry (`src/oAuth.ts`, class `ClientManager`)

State: `clients : Map id Client`, `tokenGroups : Map token (Set id)` and
`messageHandlers : Map type (list handler)`.  Handlers are opaque to the
registry, so they are embedded as numeric tags. -/

structure CMState where
  clients : List (String × ClientData)
  tokenGroups : List (String × List String)
  messageHandlers : List (String × List Nat)
  deriving DecidableEq, Repr

/-- The empty registry, the state at process start. -/
def initialCM : CMState := ⟨[], [], []⟩

/-- Construction of a `Client` (`new Client(...)` in `Client.ts`): records
identity, token and metadata, stamps `lastSeen`/`connectedSince` with the
current time, and starts out `connected`. -/
def mkClient (id token : String)
    (worldId worldTitle foundryVersion systemId systemTitle systemVersion
      customName : Option String) (wsOpen : Bool) (now : Int) : ClientData :=
  { id := id, apiKey := token, lastSeen := now, connectedSince := now,
    connected := true, wsOpen := wsOpen, worldId := worldId,
    worldTitle := worldTitle, foundryVersion := foundryVersion,
    systemId := systemId, systemTitle := systemTitle,
    systemVersion := systemVersion, customName := customName }

/-- Embedding of `ClientManager.addClient`.  When the id is already bound the
incoming socket is closed with code 4004 and no state changes; otherwise a
fresh `Client` is created, inserted into `clients`, and its id added to the
token group (creating the group when absent).  The result carries the new
state, the returned client (`null` on rejection) and the close frame sent to
the incoming socket, if any. -/
def addClient (st : CMState) (id token : String)
    (worldId worldTitle foundryVersion systemId systemTitle systemVersion
      customName : Option String) (wsOpen : Bool) (now : Int) :
    CMState × Option ClientData × Option (Nat × String) :=
  if (mfind id st.clients).isSome then
    (st, none, some (4004, "Client ID already connected"))
  else
    let c := mkClient id token worldId worldTitle foundryVersion systemId
      systemTitle systemVersion customName wsOpen now
    let clients₂ := mset id c st.clients
    let groups₂ :=
      match mfind token st.tokenGroups with
      | none => mset token [id] st.tokenGroups
      | some s => mset token (if id ∈ s then s else s ++ [id]) st.tokenGroups
    ({ st with clients := clients₂, tokenGroups := groups₂ }, some c, none)

/-- Embedding of `ClientManager.removeClient`: a no-op for an unknown id;
otherwise deletes the client, removes the id from its token group and prunes
the group when it becomes empty. -/
def removeClient (st : CMState) (id : String) : CMState :=
  match mfind id st.clients with
  | none => st
  | some c =>
    let token := c.apiKey
    let clients₂ := mdel id st.clients
    let groups₂ :=
      match mfind token st.tokenGroups with
      | none => st.tokenGroups
      | some s =>
        let s₂ := s.filter (fun x => x ≠ id)
        if s₂.length = 0 then mdel token st.tokenGroups
        else mset token s₂ st.tokenGroups
    { st with clients := clients₂, tokenGroups := groups₂ }

/-- One registry operation of the kind claim C2 quantifies over. -/
inductive CMOp where
  | add (id token : String)
      (worldId worldTitle foundryVersion systemId systemTitle systemVersion
        customName : Option String) (wsOpen : Bool) (now : Int)
  | remove (id : String)
  deriving Repr

/-- Application of one operation to the registry state. -/
def applyCMOp (st : CMState) : CMOp → CMState
  | .add id token w₁ w₂ w₃ w₄ w₅ w₆ w₇ wsOpen now =>
      (addClient st id token w₁ w₂ w₃ w₄ w₅ w₆ w₇ wsOpen now).1
  | .remove id => removeClient st id

/-- Registry state after a sequence of operations from process start. -/
def runCMOps (ops : List CMOp) : CMState := ops.foldl applyCMOp initialCM

/-- Membership of `id` in the group `g` of the registry's secondary index. -/
def groupMem (st : CMState) (g id : String) : Prop :=
  ∃ ids, mfind g st.tokenGroups = some ids ∧ id ∈ ids

/-- The registry's group-index consistency invariant: the index agrees with
the client map, and no empty group set is retained. -/
def CMInv (st : CMState) : Prop :=
  (∀ g id, groupMem st g id ↔
    ∃ c, mfind id st.clients = some c ∧ c.apiKey = g) ∧
  (∀ g ids, mfind g st.tokenGroups = some ids → ids ≠ [])

/-- A one-client registry used to instantiate several witnesses. -/
def sampleClient : ClientData :=
  mkClient "c1" "tok" none none none none none none none true 0

/-- Registry state holding exactly `sampleClient` under id `c1`, group `tok`. -/
def sampleState : CMState :=
  ⟨[("c1", sampleClient)], [("tok", ["c1"])], []⟩

/-! ## Inbound message routing (`ClientManager.handleIncomingMessage`,
`ClientManager.onMessageType`)

Handlers are opaque callbacks; the embedding tags them with numbers and
records, instead of calling them, a trace of the externally visible steps the
router takes: replying with a pong (a `Client.send` of a pong frame), invoking
one registered handler, or falling through to `broadcastToGroup`.  Each
handler invocation sits in its own `try`/`catch` in the source, so every
handler in the list is invoked regardless of earlier ones throwing. -/

inductive CMAction where
  | pongTo (id : String)
  | invoke (h : Nat)
  | broadcast (senderId : String)
  deriving DecidableEq, Repr

/-- Embedding of `ClientManager.onMessageType`: create the handler list when
absent, then push the handler at the end. -/
def onMessageType (st : CMState) (mtype : String) (hdl : Nat) : CMState :=
  match mfind mtype st.messageHandlers with
  | none => { st with messageHandlers := mset mtype [hdl] st.messageHandlers }
  | some hs => { st with messageHandlers := mset mtype (hs ++ [hdl]) st.messageHandlers }

/-- Embedding of `ClientManager.handleIncomingMessage`: unknown clients are
ignored; otherwise `lastSeen` is refreshed, then a `"ping"` is answered with a
pong and nothing else; otherwise a truthy type with registered handlers has
every handler invoked in list order; otherwise the message is broadcast to the
sender's group.  The JS truthiness test `message.type && handlers.has(...)`
makes the empty string fall through to broadcast. -/
def handleIncomingMessage (st : CMState) (clientId : String) (mtype : String)
    (now : Int) : CMState × List CMAction :=
  match mfind clientId st.clients with
  | none => (st, [])
  | some c =>
    let st₂ := { st with
      clients := mset clientId { c with lastSeen := now } st.clients }
    if mtype = "ping" then (st₂, [CMAction.pongTo clientId])
    else if mtype = "" then (st₂, [CMAction.broadcast clientId])
    else
      match mfind mtype st.messageHandlers with
      | some hs => (st₂, hs.map CMAction.invoke)
      | none => (st₂, [CMAction.broadcast clientId])

/-- Registry with one client and one registered result handler, used to
instantiate the routing witness. -/
def sampleHandlersState : CMState :=
  ⟨[("c1", sampleClient)], [("tok", ["c1"])], [("rolls-result", [0])]⟩

/-! ## Group broadcast (`ClientManager.broadcastToGroup`)

The loop walks the sender's token-group set; for every other id whose client
is registered and alive it calls `Client.send` (whose per-send success is the
oracle argument here, and whose result the loop ignores — `send` never
throws).  The embedding returns the updated client map together with the list
of ids to which a delivery was attempted, in iteration order. -/

/-- Whether the map holds a currently alive client under the id. -/
def aliveInMap (cl : List (String × ClientData)) (i : String) : Bool :=
  match mfind i cl with
  | some c => clientIsAlive c
  | none => false

/-- The body of the broadcast loop over the group id set. -/
def broadcastStep (senderId : String) (oracle : String → Bool) :
    List String → List (String × ClientData) →
      List (String × ClientData) × List String
  | [], cl => (cl, [])
  | i :: rest, cl =>
    if i = senderId then broadcastStep senderId oracle rest cl
    else
      match mfind i cl with
      | none => broadcastStep senderId oracle rest cl
      | some c =>
        if clientIsAlive c then
          let r := broadcastStep senderId oracle rest
            (mset i (clientSend c (oracle i)).1 cl)
          (r.1, i :: r.2)
        else broadcastStep senderId oracle rest cl

/-- Embedding of `ClientManager.broadcastToGroup`: no-op for an unknown
sender or a sender whose token has no group set; otherwise run the loop over
the group set. -/
def broadcastToGroup (st : CMState) (senderId : String)
    (oracle : String → Bool) : CMState × List String :=
  match mfind senderId st.clients with
  | none => (st, [])
  | some sender =>
    match mfind sender.apiKey st.tokenGroups with
    | none => (st, [])
    | some ids =>
      let r := broadcastStep senderId oracle ids st.clients
      ({ st with clients := r.1 }, r.2)

/-- Registry reached by connecting `c1` then `c2`, both in group `tok`. -/
def stTwo : CMState :=
  applyCMOp
    (applyCMOp initialCM
      (CMOp.add "c1" "tok" none none none none none none none true 0))
    (CMOp.add "c2" "tok" none none none none none none none true 0)

/-! ## The pending-request correlation table (`src/routes/shared.ts` map
`pendingRequests`, operated on by `src/routes/api.ts` and
`src/routes/route-helpers.ts`)

An entry either carries the Express response sink (`hasRes = true`, the
`createApiRoute` shape) or the resolve/reject continuation pair (the
`sendClientRequest` shape).  The handlers below transcribe the three pieces
of code that finalize a waiter, each returning the updated table plus the
trace of externally visible effects: an HTTP response on the stored sink, a
promise resolution or rejection, and the `Map.delete` itself. -/

structure PendingRequest where
  hasRes : Bool
  type : String
  clientId : String
  timestamp : Int
  deriving DecidableEq, Repr

inductive PendingEff where
  | httpRespond (rid : String) (status : Nat)
  | resolveTo (rid : String)
  | rejectTo (rid : String)
  | deleted (rid : String)
  deriving DecidableEq, Repr

/-- Whether an effect finalizes a waiter (responds on the sink, resolves, or
rejects); a bare `Map.delete` does not. -/
def isFinalization : PendingEff → Bool
  | .deleted _ => false
  | _ => true

/-- Embedding of the generic `*-result` handler installed by
`setupMessageHandlers` (`api.ts` lines 114–147): a truthy `requestId` present
in the table is answered on its stored sink (400 on error, 200 otherwise) or
through its continuations, then the entry is deleted; otherwise nothing
happens. -/
def resultHandler (rid : String) (hasError : Bool)
    (tbl : List (String × PendingRequest)) :
    List (String × PendingRequest) × List PendingEff :=
  if rid = "" then (tbl, [])
  else
    match mfind rid tbl with
    | none => (tbl, [])
    | some p =>
      let fin :=
        if p.hasRes then
          if hasError then PendingEff.httpRespond rid 400
          else PendingEff.httpRespond rid 200
        else
          if hasError then PendingEff.rejectTo rid
          else PendingEff.resolveTo rid
      (mdel rid tbl, [fin, PendingEff.deleted rid])

/-- Embedding of the per-request timeout of `createApiRoute`
(`route-helpers.ts` lines 186–191): if the id is still present, delete it and
answer 408 on the sink; otherwise do nothing. -/
def expressTimeout (rid : String) (tbl : List (String × PendingRequest)) :
    List (String × PendingRequest) × List PendingEff :=
  if (mfind rid tbl).isSome then
    (mdel rid tbl, [PendingEff.deleted rid, PendingEff.httpRespond rid 408])
  else (tbl, [])

/-- Embedding of the per-request timeout of `sendClientRequest`
(`route-helpers.ts` lines 261–266): if the id is still present, reject the
waiter with a timeout error and delete the entry. -/
def promiseTimeout (rid : String) (tbl : List (String × PendingRequest)) :
    List (String × PendingRequest) × List PendingEff :=
  if (mfind rid tbl).isSome then
    (mdel rid tbl, [PendingEff.rejectTo rid, PendingEff.deleted rid])
  else (tbl, [])

/-- A concrete sink-bound pending entry used by witnesses. -/
def samplePending : PendingRequest :=
  ⟨true, "rolls", "c1", 100⟩

/-! ## Register-before-send and cleanup on send failure (`createApiRoute`,
`sendClientRequest`)

Both callers follow the same shape: build the pending entry, put it in the
table, call `Client.send`, and on a `false` return delete the entry again and
fail the call.  `sendClientRequest` registers only when its request type is
one of the pending types (`PENDING_REQUEST_TYPES`, a constant list from
`shared.ts`, taken here as a parameter).  `tableAtSend` is the table state at
the moment `Client.send` is invoked. -/

structure SendPhase where
  tableAtSend : List (String × PendingRequest)
  finalTable : List (String × PendingRequest)
  failed : Bool
  deriving DecidableEq, Repr

/-- The register/send/cleanup sequence of `createApiRoute`
(`route-helpers.ts` lines 150–191); `failed = true` stands for the 500
"Failed to send request to Foundry client" response. -/
def createApiRouteSend (tbl : List (String × PendingRequest)) (rid : String)
    (entry : PendingRequest) (sent : Bool) : SendPhase :=
  let t₁ := mset rid entry tbl
  if sent then ⟨t₁, t₁, false⟩
  else ⟨t₁, mdel rid t₁, true⟩

/-- The register/send/cleanup sequence of `sendClientRequest`
(`route-helpers.ts` lines 221–267); `failed = true` stands for the rejection
with "Failed to send request to Foundry client". -/
def sendClientRequestSend (pendingTypes : List String)
    (tbl : List (String × PendingRequest)) (rtype : String) (rid : String)
    (entry : PendingRequest) (sent : Bool) : SendPhase :=
  let isPending := rtype ∈ pendingTypes
  let t₁ := if isPending then mset rid entry tbl else tbl
  if sent then ⟨t₁, t₁, false⟩
  else ⟨t₁, if isPending then mdel rid t₁ else t₁, true⟩

/-! ## Request-id generation (`createApiRoute` line 150, `sendClientRequest`
line 221) -/

/-- The id scheme used by both originating paths: the request type, an
underscore, and the current millisecond timestamp. -/
def genRequestId (rtype : String) (nowMs : Nat) : String :=
  rtype ++ "_" ++ toString nowMs

/-! ## The periodic sweep (`api.ts` lines 207–217)

Every 10 s the interval walks all entries and deletes those whose `timestamp`
is more than 30000 ms in the past.  The loop body only logs and calls
`Map.delete`; it never touches the stored `res`, `resolve` or `reject`. -/

/-- Embedding of one pass of the cleanup interval: old entries are dropped
from the table, each such drop recorded as a bare `deleted` effect. -/
def sweepOnce (now : Int) : List (String × PendingRequest) →
    List (String × PendingRequest) × List PendingEff
  | [] => ([], [])
  | e :: rest =>
    let r := sweepOnce now rest
    if now - e.2.timestamp > 30000 then (r.1, PendingEff.deleted e.1 :: r.2)
    else (e :: r.1, r.2)

/-- A sample client whose transport has been marked disconnected. -/
def sampleDeadClient : ClientData :=
  { sampleClient with connected := false }

/-! ## Connection admission (`src/routes/websocket.ts` lines 26–48 composed
with the duplicate-id rejection of `ClientManager.addClient`)

The handshake reads `id` and `token` from the query string (absent parameters
come back as `null`, and JS truthiness also treats the empty string as
missing), rejects with close code 1008 when either is missing, rejects with
close code 1008 again when the token differs from the configured `API_KEY`,
and otherwise defers to `addClient`, which rejects a duplicate id with close
code 4004. -/

def wsConnectionDecision (id token : Option String) (configuredKey : String)
    (duplicate : Bool) : Option (Nat × String) :=
  if id.getD "" = "" ∨ token.getD "" = "" then
    some (1008, "Missing client ID or token")
  else if configuredKey ≠ token.getD "" then
    some (1008, "Invalid API Key")
  else if duplicate then
    some (4004, "Client ID already connected")
  else none

/-! ## Theorems -/

theorem mfind_mset_self (k : String) (v : α) (l : List (String × α)) :
    mfind k (mset k v l) = some v := by
  induction l with
  | nil => simp [mset, mfind]
  | cons e rest ih =>
    obtain ⟨k₂, v₂⟩ := e
    by_cases h : k₂ = k <;> simp [mset, mfind, h, ih]

theorem mfind_mset_ne (k j : String) (v : α) (l : List (String × α)) (h : j ≠ k) :
    mfind j (mset k v l) = mfind j l := by
  induction l with
  | nil => simp [mset, mfind, Ne.symm h]
  | cons e rest ih =>
    obtain ⟨k₂, v₂⟩ := e
    simp only [mset]
    by_cases hk : k₂ = k
    · rw [if_pos hk]
      subst hk
      simp [mfind, Ne.symm h]
    · rw [if_neg hk]
      simp [mfind, ih]

theorem mfind_mdel_self (k : String) (l : List (String × α)) :
    mfind k (mdel k l) = none := by
  induction l with
  | nil => simp [mdel, mfind]
  | cons e rest ih =>
    obtain ⟨k₂, v₂⟩ := e
    by_cases h : k₂ = k <;> simp [mdel, mfind, h, ih]

theorem mfind_mdel_ne (k j : String) (l : List (String × α)) (h : j ≠ k) :
    mfind j (mdel k l) = mfind j l := by
  induction l with
  | nil => simp [mdel, mfind]
  | cons e rest ih =>
    obtain ⟨k₂, v₂⟩ := e
    simp only [mdel]
    by_cases hk : k₂ = k
    · rw [if_pos hk]
      subst hk
      simp [mfind, Ne.symm h, ih]
    · rw [if_neg hk]
      simp [mfind, ih]

theorem mset_mset_self (k : String) (v₁ v₂ : α) (l : List (String × α)) :
    mset k v₂ (mset k v₁ l) = mset k v₂ l := by
  induction l with
  | nil => simp [mset]
  | cons e rest ih =>
    obtain ⟨k₂, v₃⟩ := e
    by_cases h : k₂ = k <;> simp [mset, h, ih]

theorem mfind_mem_values (k : String) (v : α) (l : List (String × α))
    (h : mfind k l = some v) : v ∈ l.map Prod.snd := by
  induction l with
  | nil => simp [mfind] at h
  | cons e rest ih =>
    obtain ⟨k₂, v₂⟩ := e
    by_cases hk : k₂ = k
    · simp only [mfind, if_pos hk, Option.some.injEq] at h
      simp [h]
    · simp only [mfind, if_neg hk] at h
      simp only [List.map_cons, List.mem_cons]
      exact Or.inr (ih h)

theorem values_mset_subset (k : String) (v w : α) (l : List (String × α))
    (h : w ∈ (mset k v l).map Prod.snd) : w = v ∨ w ∈ l.map Prod.snd := by
  induction l with
  | nil =>
    simp [mset] at h
    exact Or.inl h
  | cons e rest ih =>
    obtain ⟨k₂, v₂⟩ := e
    by_cases hk : k₂ = k
    · simp only [mset, if_pos hk, List.map_cons, List.mem_cons] at h
      rcases h with h | h
      · exact Or.inl h
      · exact Or.inr (by simp only [List.map_cons, List.mem_cons]; exact Or.inr h)
    · simp only [mset, if_neg hk, List.map_cons, List.mem_cons] at h
      rcases h with h | h
      · exact Or.inr (by simp only [List.map_cons, List.mem_cons]; exact Or.inl h)
      · rcases ih h with h₂ | h₂
        · exact Or.inl h₂
        · exact Or.inr (by simp only [List.map_cons, List.mem_cons]; exact Or.inr h₂)

theorem clientSend_snd (c : ClientData) (w : Bool) :
    (clientSend c w).2 = (clientIsAlive c && w) := by
  by_cases h : clientIsAlive c <;> cases w <;> simp [clientSend, h]

theorem clientSend_fail_not_connected (c : ClientData)
    (h : clientIsAlive c = true) : (clientSend c false).1.connected = false := by
  simp [clientSend, h]

theorem clientSend_after_fail (c : ClientData) (w : Bool) :
    clientSend (clientSend c false).1 w = ((clientSend c false).1, false) := by
  by_cases h : clientIsAlive c
  · have h₂ : (clientSend c false).1 = { c with connected := false } := by
      simp [clientSend, h]
    rw [h₂]
    simp [clientSend, clientIsAlive]
  · have h₂ : (clientSend c false).1 = c := by simp [clientSend, h]
    rw [h₂]
    simp [clientSend, h]

theorem mem_setAdd (s : List String) (id i : String) :
    (i ∈ (if id ∈ s then s else s ++ [id])) ↔ (i ∈ s ∨ i = id) := by
  by_cases h : id ∈ s
  · rw [if_pos h]
    constructor
    · exact Or.inl
    · rintro (h₂ | rfl)
      · exact h₂
      · exact h
  · rw [if_neg h]
    simp

theorem initialCM_inv : CMInv initialCM := by
  constructor
  · intro g id
    simp [groupMem, initialCM, mfind]
  · intro g ids h
    simp [initialCM, mfind] at h

theorem addClient_preserves_inv (st : CMState) (id token : String)
    (w₁ w₂ w₃ w₄ w₅ w₆ w₇ : Option String) (wsOpen : Bool) (now : Int)
    (h : CMInv st) :
    CMInv (addClient st id token w₁ w₂ w₃ w₄ w₅ w₆ w₇ wsOpen now).1 := by
  obtain ⟨hiff, hne⟩ := h
  cases hid : mfind id st.clients with
  | some c₀ =>
    have hstep : (addClient st id token w₁ w₂ w₃ w₄ w₅ w₆ w₇ wsOpen now).1 = st := by
      simp [addClient, hid]
    rw [hstep]
    exact ⟨hiff, hne⟩
  | none =>
    cases hgr : mfind token st.tokenGroups with
    | none =>
      have hstep : (addClient st id token w₁ w₂ w₃ w₄ w₅ w₆ w₇ wsOpen now).1 =
          { st with
            clients := mset id (mkClient id token w₁ w₂ w₃ w₄ w₅ w₆ w₇ wsOpen now)
              st.clients,
            tokenGroups := mset token [id] st.tokenGroups } := by
        simp [addClient, hid, hgr]
      rw [hstep]
      constructor
      · intro g i
        constructor
        · rintro ⟨ids, hids, hmem⟩
          simp only [groupMem] at *
          by_cases hg : g = token
          · subst hg
            rw [mfind_mset_self] at hids
            injection hids with hids
            subst hids
            have hi : i = id := by simpa using hmem
            subst hi
            exact ⟨mkClient i g w₁ w₂ w₃ w₄ w₅ w₆ w₇ wsOpen now,
              by rw [mfind_mset_self], rfl⟩
          · rw [mfind_mset_ne token g [id] st.tokenGroups hg] at hids
            obtain ⟨c₂, hc₂, hk⟩ := (hiff g i).1 ⟨ids, hids, hmem⟩
            have hi : i ≠ id := by
              rintro rfl
              rw [hid] at hc₂
              exact Option.noConfusion hc₂
            exact ⟨c₂, by rw [mfind_mset_ne id i _ st.clients hi]; exact hc₂, hk⟩
        · rintro ⟨c₂, hc₂, hk⟩
          by_cases hi : i = id
          · subst hi
            rw [mfind_mset_self] at hc₂
            injection hc₂ with hc₂
            subst hc₂
            have hg : g = token := by
              simpa [mkClient] using hk.symm
            subst hg
            exact ⟨[i], by rw [mfind_mset_self], by simp⟩
          · rw [mfind_mset_ne id i _ st.clients hi] at hc₂
            obtain ⟨ids, hids, hmem⟩ := (hiff g i).2 ⟨c₂, hc₂, hk⟩
            have hg : g ≠ token := by
              rintro rfl
              rw [hgr] at hids
              exact Option.noConfusion hids
            exact ⟨ids,
              by rw [mfind_mset_ne token g [id] st.tokenGroups hg]; exact hids, hmem⟩
      · intro g ids hids
        by_cases hg : g = token
        · subst hg
          rw [mfind_mset_self] at hids
          injection hids with hids
          subst hids
          simp
        · rw [mfind_mset_ne token g [id] st.tokenGroups hg] at hids
          exact hne g ids hids
    | some s =>
      have hstep : (addClient st id token w₁ w₂ w₃ w₄ w₅ w₆ w₇ wsOpen now).1 =
          { st with
            clients := mset id (mkClient id token w₁ w₂ w₃ w₄ w₅ w₆ w₇ wsOpen now)
              st.clients,
            tokenGroups := mset token (if id ∈ s then s else s ++ [id])
              st.tokenGroups } := by
        simp [addClient, hid, hgr]
      rw [hstep]
      constructor
      · intro g i
        constructor
        · rintro ⟨ids, hids, hmem⟩
          by_cases hg : g = token
          · subst hg
            rw [mfind_mset_self] at hids
            injection hids with hids
            subst hids
            rcases (mem_setAdd s id i).1 hmem with hmem₂ | hmem₂
            · obtain ⟨c₂, hc₂, hk⟩ := (hiff g i).1 ⟨s, hgr, hmem₂⟩
              have hi : i ≠ id := by
                rintro rfl
                rw [hid] at hc₂
                exact Option.noConfusion hc₂
              exact ⟨c₂, by rw [mfind_mset_ne id i _ st.clients hi]; exact hc₂, hk⟩
            · subst hmem₂
              exact ⟨mkClient i g w₁ w₂ w₃ w₄ w₅ w₆ w₇ wsOpen now,
                by rw [mfind_mset_self], rfl⟩
          · rw [mfind_mset_ne token g _ st.tokenGroups hg] at hids
            obtain ⟨c₂, hc₂, hk⟩ := (hiff g i).1 ⟨ids, hids, hmem⟩
            have hi : i ≠ id := by
              rintro rfl
              rw [hid] at hc₂
              exact Option.noConfusion hc₂
            exact ⟨c₂, by rw [mfind_mset_ne id i _ st.clients hi]; exact hc₂, hk⟩
        · rintro ⟨c₂, hc₂, hk⟩
          by_cases hi : i = id
          · subst hi
            rw [mfind_mset_self] at hc₂
            injection hc₂ with hc₂
            subst hc₂
            have hg : g = token := by
              simpa [mkClient] using hk.symm
            subst hg
            exact ⟨(if i ∈ s then s else s ++ [i]), by rw [mfind_mset_self],
              (mem_setAdd s i i).2 (Or.inr rfl)⟩
          · rw [mfind_mset_ne id i _ st.clients hi] at hc₂
            obtain ⟨ids, hids, hmem⟩ := (hiff g i).2 ⟨c₂, hc₂, hk⟩
            by_cases hg : g = token
            · subst hg
              rw [hgr] at hids
              injection hids with hids
              subst hids
              exact ⟨(if id ∈ s then s else s ++ [id]), by rw [mfind_mset_self],
                (mem_setAdd s id i).2 (Or.inl hmem)⟩
            · exact ⟨ids,
                by rw [mfind_mset_ne token g _ st.tokenGroups hg]; exact hids, hmem⟩
      · intro g ids hids
        by_cases hg : g = token
        · subst hg
          rw [mfind_mset_self] at hids
          injection hids with hids
          subst hids
          by_cases hmem : id ∈ s
          · simpa [hmem] using hne g s hgr
          · simp [hmem]
        · rw [mfind_mset_ne token g _ st.tokenGroups hg] at hids
          exact hne g ids hids

theorem removeClient_preserves_inv (st : CMState) (id : String) (h : CMInv st) :
    CMInv (removeClient st id) := by
  obtain ⟨hiff, hne⟩ := h
  cases hid : mfind id st.clients with
  | none =>
    have hstep : removeClient st id = st := by simp [removeClient, hid]
    rw [hstep]
    exact ⟨hiff, hne⟩
  | some c =>
    obtain ⟨s, hgr, hmem⟩ := (hiff c.apiKey id).2 ⟨c, hid, rfl⟩
    by_cases hemp : (s.filter (fun x => x ≠ id)).length = 0
    · have hstep : removeClient st id =
          { st with clients := mdel id st.clients,
                    tokenGroups := mdel c.apiKey st.tokenGroups } := by
        simp only [removeClient, hid, hgr]
        rw [if_pos hemp]
      rw [hstep]
      constructor
      · intro g i
        constructor
        · rintro ⟨ids, hids, hmem₂⟩
          by_cases hg : g = c.apiKey
          · rw [hg, mfind_mdel_self] at hids
            exact Option.noConfusion hids
          · rw [mfind_mdel_ne c.apiKey g st.tokenGroups hg] at hids
            obtain ⟨c₂, hc₂, hk⟩ := (hiff g i).1 ⟨ids, hids, hmem₂⟩
            have hi : i ≠ id := by
              rintro rfl
              rw [hid] at hc₂
              injection hc₂ with hc₂
              subst hc₂
              exact hg hk.symm
            exact ⟨c₂, by rw [mfind_mdel_ne id i st.clients hi]; exact hc₂, hk⟩
        · rintro ⟨c₂, hc₂, hk⟩
          have hi : i ≠ id := by
            rintro rfl
            rw [mfind_mdel_self] at hc₂
            exact Option.noConfusion hc₂
          rw [mfind_mdel_ne id i st.clients hi] at hc₂
          obtain ⟨ids, hids, hmem₂⟩ := (hiff g i).2 ⟨c₂, hc₂, hk⟩
          have hg : g ≠ c.apiKey := by
            rintro rfl
            rw [hgr] at hids
            injection hids with hids
            subst hids
            have hfil : i ∈ s.filter (fun x => x ≠ id) := by
              simp [List.mem_filter, hmem₂, hi]
            rw [List.length_eq_zero.mp hemp] at hfil
            simp at hfil
          exact ⟨ids,
            by rw [mfind_mdel_ne c.apiKey g st.tokenGroups hg]; exact hids, hmem₂⟩
      · intro g ids hids
        by_cases hg : g = c.apiKey
        · rw [hg, mfind_mdel_self] at hids
          exact Option.noConfusion hids
        · rw [mfind_mdel_ne c.apiKey g st.tokenGroups hg] at hids
          exact hne g ids hids
    · have hstep : removeClient st id =
          { st with clients := mdel id st.clients,
                    tokenGroups :=
                      mset c.apiKey (s.filter (fun x => x ≠ id)) st.tokenGroups } := by
        simp only [removeClient, hid, hgr]
        rw [if_neg hemp]
      rw [hstep]
      constructor
      · intro g i
        constructor
        · rintro ⟨ids, hids, hmem₂⟩
          by_cases hg : g = c.apiKey
          · rw [hg, mfind_mset_self] at hids
            injection hids with hids
            subst hids
            have hmem₃ : i ∈ s ∧ i ≠ id := by
              simpa [List.mem_filter] using hmem₂
            obtain ⟨c₂, hc₂, hk⟩ :=
              (hiff g i).1 ⟨s, by rw [hg]; exact hgr, hmem₃.1⟩
            exact ⟨c₂, by rw [mfind_mdel_ne id i st.clients hmem₃.2]; exact hc₂, hk⟩
          · rw [mfind_mset_ne c.apiKey g _ st.tokenGroups hg] at hids
            obtain ⟨c₂, hc₂, hk⟩ := (hiff g i).1 ⟨ids, hids, hmem₂⟩
            have hi : i ≠ id := by
              rintro rfl
              rw [hid] at hc₂
              injection hc₂ with hc₂
              subst hc₂
              exact hg hk.symm
            exact ⟨c₂, by rw [mfind_mdel_ne id i st.clients hi]; exact hc₂, hk⟩
        · rintro ⟨c₂, hc₂, hk⟩
          have hi : i ≠ id := by
            rintro rfl
            rw [mfind_mdel_self] at hc₂
            exact Option.noConfusion hc₂
          rw [mfind_mdel_ne id i st.clients hi] at hc₂
          obtain ⟨ids, hids, hmem₂⟩ := (hiff g i).2 ⟨c₂, hc₂, hk⟩
          by_cases hg : g = c.apiKey
          · refine ⟨s.filter (fun x => x ≠ id), by rw [hg, mfind_mset_self], ?_⟩
            rw [hg, hgr] at hids
            injection hids with hids
            subst hids
            simp [List.mem_filter, hmem₂, hi]
          · exact ⟨ids,
              by rw [mfind_mset_ne c.apiKey g _ st.tokenGroups hg]; exact hids, hmem₂⟩
      · intro g ids hids
        by_cases hg : g = c.apiKey
        · rw [hg, mfind_mset_self] at hids
          injection hids with hids
          subst hids
          intro hnil
          exact hemp (by rw [hnil]; rfl)
        · rw [mfind_mset_ne c.apiKey g _ st.tokenGroups hg] at hids
          exact hne g ids hids

/-- Helper inductive step: every operation preserves the registry invariant. -/
theorem applyCMOp_preserves_inv (st : CMState) (op : CMOp) (h : CMInv st) :
    CMInv (applyCMOp st op) := by
  cases op with
  | add id token w₁ w₂ w₃ w₄ w₅ w₆ w₇ wsOpen now =>
    exact addClient_preserves_inv st id token w₁ w₂ w₃ w₄ w₅ w₆ w₇ wsOpen now h
  | remove id => exact removeClient_preserves_inv st id h

/-- C2: after every sequence of `addClient` and `removeClient` operations, the
group index agrees exactly with the client map (an id is a member of
`tokenGroups[g]` iff `clients[id]` exists with `getApiKey() = g`), and every
group set still present is non-empty. -/
theorem groups_consistent_after_ops (ops : List CMOp) : CMInv (runCMOps ops) := by
  have hstep : ∀ st, CMInv st → CMInv (ops.foldl applyCMOp st) := by
    induction ops with
    | nil => exact fun st h => h
    | cons op rest ih =>
      intro st h
      exact ih (applyCMOp st op) (applyCMOp_preserves_inv st op h)
  exact hstep initialCM initialCM_inv

/-- Witness for C2 at a concrete operation sequence: after adding `c1` and
`c2` to group `tok` and removing `c1`, the theorem yields that the surviving
group set is non-empty as the invariant requires. -/
theorem groups_consistent_after_ops_witness :
    mfind "tok" (runCMOps
      [CMOp.add "c1" "tok" none none none none none none none true 0,
       CMOp.add "c2" "tok" none none none none none none none true 0,
       CMOp.remove "c1"]).tokenGroups = some ["c2"] ∧
    ["c2"] ≠ ([] : List String) :=
  ⟨by decide,
   (groups_consistent_after_ops
      [CMOp.add "c1" "tok" none none none none none none none true 0,
       CMOp.add "c2" "tok" none none none none none none none true 0,
       CMOp.remove "c1"]).2 "tok" ["c2"] (by decide)⟩

/-- C3: calling `addClient` with an id already bound returns `null`, closes
the incoming socket with code 4004, and leaves the whole registry state
(the bound client included) unchanged. -/
theorem addClient_duplicate_rejected (st : CMState) (id token : String)
    (w₁ w₂ w₃ w₄ w₅ w₆ w₇ : Option String) (wsOpen : Bool) (now : Int)
    (c : ClientData) (h : mfind id st.clients = some c) :
    addClient st id token w₁ w₂ w₃ w₄ w₅ w₆ w₇ wsOpen now =
      (st, none, some (4004, "Client ID already connected")) := by
  simp [addClient, h]

/-- Witness for C3: a second connection reusing id `c1` is rejected with 4004
and the registry is returned unchanged. -/
theorem addClient_duplicate_rejected_witness :
    mfind "c1" sampleState.clients = some sampleClient ∧
    addClient sampleState "c1" "other" none none none none none none none true 7 =
      (sampleState, none, some (4004, "Client ID already connected")) :=
  ⟨by decide,
   addClient_duplicate_rejected sampleState "c1" "other"
     none none none none none none none true 7 sampleClient (by decide)⟩

/-- C5: for a registered client (and with no handler registered under the
empty type, as in the program, whose registrations are all `*-result` names),
`handleIncomingMessage` refreshes `lastSeen` and routes exclusively: a ping is
answered with exactly a pong; a type with registered handlers has exactly
those handlers invoked in registration order and no broadcast; any other type
is exactly broadcast.  `onMessageType` appends, so the handler list is in
registration order. -/
theorem handleIncomingMessage_routes (st : CMState) (cid mtype : String)
    (now : Int) (c : ClientData) (hc : mfind cid st.clients = some c)
    (hempty : mfind "" st.messageHandlers = (none : Option (List Nat))) :
    ((handleIncomingMessage st cid mtype now).1 =
      { st with clients := mset cid { c with lastSeen := now } st.clients }) ∧
    (mtype = "ping" →
      (handleIncomingMessage st cid mtype now).2 = [CMAction.pongTo cid]) ∧
    (∀ hs, mtype ≠ "ping" → mfind mtype st.messageHandlers = some hs →
      (handleIncomingMessage st cid mtype now).2 = hs.map CMAction.invoke) ∧
    (mtype ≠ "ping" → mfind mtype st.messageHandlers = none →
      (handleIncomingMessage st cid mtype now).2 = [CMAction.broadcast cid]) ∧
    (∀ t hdl, mfind t (onMessageType st t hdl).messageHandlers =
      some ((mfind t st.messageHandlers).getD [] ++ [hdl])) := by
  refine ⟨?_, ?_, ?_, ?_, ?_⟩
  · by_cases hping : mtype = "ping"
    · simp [handleIncomingMessage, hc, hping]
    · by_cases hmt : mtype = ""
      · simp [handleIncomingMessage, hc, hping, hmt]
      · cases hh : mfind mtype st.messageHandlers <;>
          simp [handleIncomingMessage, hc, hping, hmt, hh]
  · intro hping
    simp [handleIncomingMessage, hc, hping]
  · intro hs hping hfound
    have hmt : mtype ≠ "" := by
      rintro rfl
      rw [hempty] at hfound
      exact Option.noConfusion hfound
    simp [handleIncomingMessage, hc, hping, hmt, hfound]
  · intro hping hfound
    by_cases hmt : mtype = ""
    · simp [handleIncomingMessage, hc, hping, hmt]
    · simp [handleIncomingMessage, hc, hping, hmt, hfound]
  · intro t hdl
    cases hh : mfind t st.messageHandlers <;>
      simp [onMessageType, hh, mfind_mset_self]

/-- Witness for C5: with one handler registered for `rolls-result`, an inbound
`rolls-result` message from `c1` invokes exactly that handler. -/
theorem handleIncomingMessage_routes_witness :
    (handleIncomingMessage sampleHandlersState "c1" "rolls-result" 5).2 =
      [CMAction.invoke 0] :=
  (handleIncomingMessage_routes sampleHandlersState "c1" "rolls-result" 5
    sampleClient (by decide) (by decide)).2.2.1 [0] (by decide) (by decide)

theorem broadcastStep_snd (senderId : String) (oracle : String → Bool) :
    ∀ (ids : List String), ids.Nodup → ∀ cl,
      (broadcastStep senderId oracle ids cl).2 =
        ids.filter (fun i => if i = senderId then false else aliveInMap cl i) := by
  intro ids
  induction ids with
  | nil =>
    intro _ cl
    simp [broadcastStep]
  | cons i rest ih =>
    intro hnd cl
    obtain ⟨hni, hrest⟩ := List.nodup_cons.mp hnd
    by_cases hi : i = senderId
    · subst hi
      simp [broadcastStep, ih hrest cl, List.filter_cons]
    · cases hm : mfind i cl with
      | none =>
        simp [broadcastStep, hi, hm, ih hrest cl, List.filter_cons, aliveInMap]
      | some c =>
        by_cases halive : clientIsAlive c
        · have h₂ : (broadcastStep senderId oracle (i :: rest) cl).2 =
              i :: (broadcastStep senderId oracle rest
                (mset i (clientSend c (oracle i)).1 cl)).2 := by
            simp [broadcastStep, hi, hm, halive]
          rw [h₂, ih hrest (mset i (clientSend c (oracle i)).1 cl),
            List.filter_cons]
          have hpred : (if i = senderId then false else aliveInMap cl i) = true := by
            simp [hi, aliveInMap, hm, halive]
          rw [hpred]
          simp only [if_true]
          congr 1
          apply List.filter_congr
          intro j hj
          have hji : j ≠ i := fun h => hni (h ▸ hj)
          by_cases hjs : j = senderId
          · simp [hjs]
          · simp only [if_neg hjs, aliveInMap,
              mfind_mset_ne i j (clientSend c (oracle i)).1 cl hji]
        · simp [broadcastStep, hi, hm, halive, ih hrest cl, List.filter_cons,
            aliveInMap]

/-- C6: with the registry invariant, `broadcastToGroup` attempts delivery to
exactly the other currently-alive members of the sender's token group — never
the sender, never a client of a different group — and the attempted-recipient
list does not depend on which individual sends fail. -/
theorem broadcastToGroup_targets (st : CMState) (senderId : String)
    (o₁ o₂ : String → Bool) (sender : ClientData) (ids : List String)
    (hs : mfind senderId st.clients = some sender)
    (hg : mfind sender.apiKey st.tokenGroups = some ids)
    (hnd : ids.Nodup) (hinv : CMInv st) :
    ((broadcastToGroup st senderId o₁).2 =
      ids.filter (fun i => if i = senderId then false else
        aliveInMap st.clients i)) ∧
    (∀ i, i ∈ (broadcastToGroup st senderId o₁).2 →
      i ≠ senderId ∧ ∃ c, mfind i st.clients = some c ∧
        clientIsAlive c = true ∧ c.apiKey = sender.apiKey) ∧
    (∀ i, i ∈ ids → i ≠ senderId → aliveInMap st.clients i = true →
      i ∈ (broadcastToGroup st senderId o₁).2) ∧
    ((broadcastToGroup st senderId o₁).2 = (broadcastToGroup st senderId o₂).2) := by
  have hchar : ∀ o : String → Bool, (broadcastToGroup st senderId o).2 =
      ids.filter (fun i => if i = senderId then false else
        aliveInMap st.clients i) := by
    intro o
    simp only [broadcastToGroup, hs, hg]
    exact broadcastStep_snd senderId o ids hnd st.clients
  refine ⟨hchar o₁, ?_, ?_, by rw [hchar o₁, hchar o₂]⟩
  · intro i hi
    rw [hchar o₁, List.mem_filter] at hi
    obtain ⟨hmem, hpred⟩ := hi
    by_cases hisend : i = senderId
    · simp [hisend] at hpred
    · refine ⟨hisend, ?_⟩
      cases hm : mfind i st.clients with
      | none => simp [aliveInMap, hm, hisend] at hpred
      | some c =>
        refine ⟨c, rfl, by simpa [aliveInMap, hm, hisend] using hpred, ?_⟩
        obtain ⟨c₂, hc₂, hk⟩ := (hinv.1 sender.apiKey i).1 ⟨ids, hg, hmem⟩
        rw [hm] at hc₂
        injection hc₂ with hc₂
        subst hc₂
        exact hk
  · intro i hmem hisend halive
    rw [hchar o₁, List.mem_filter]
    exact ⟨hmem, by simp [hisend, halive]⟩

/-- Witness for C6: in the two-client group, a broadcast from `c1` attempts
delivery to exactly `c2`, whatever the per-send outcomes. -/
theorem broadcastToGroup_targets_witness :
    (broadcastToGroup stTwo "c1" (fun _ => true)).2 = ["c2"] := by
  have hinv : CMInv stTwo :=
    applyCMOp_preserves_inv _ _ (applyCMOp_preserves_inv _ _ initialCM_inv)
  have h := broadcastToGroup_targets stTwo "c1" (fun _ => true) (fun _ => false)
    (mkClient "c1" "tok" none none none none none none none true 0)
    ["c1", "c2"] (by decide) (by decide) (by decide) hinv
  rw [h.1]
  decide

/-- C1: for a registered pending id, whichever of the matching-result handler
and the timeout runs first emits exactly one finalization and removes the
entry, and the other racer then finds the id absent and changes nothing — so
no waiter is finalized twice in either order, for either timeout shape. -/
theorem pending_exactly_once (rid : String) (hasError : Bool)
    (tbl : List (String × PendingRequest)) (p : PendingRequest)
    (hfound : mfind rid tbl = some p) (hrid : rid ≠ "") :
    (((resultHandler rid hasError tbl).2.filter isFinalization).length = 1) ∧
    (mfind rid (resultHandler rid hasError tbl).1 = none) ∧
    (expressTimeout rid (resultHandler rid hasError tbl).1 =
      ((resultHandler rid hasError tbl).1, [])) ∧
    (promiseTimeout rid (resultHandler rid hasError tbl).1 =
      ((resultHandler rid hasError tbl).1, [])) ∧
    ((expressTimeout rid tbl).2.filter isFinalization =
      [PendingEff.httpRespond rid 408]) ∧
    (mfind rid (expressTimeout rid tbl).1 = none) ∧
    (resultHandler rid hasError (expressTimeout rid tbl).1 =
      ((expressTimeout rid tbl).1, [])) ∧
    ((promiseTimeout rid tbl).2.filter isFinalization =
      [PendingEff.rejectTo rid]) ∧
    (mfind rid (promiseTimeout rid tbl).1 = none) ∧
    (resultHandler rid hasError (promiseTimeout rid tbl).1 =
      ((promiseTimeout rid tbl).1, [])) := by
  have hres : (resultHandler rid hasError tbl).1 = mdel rid tbl := by
    simp only [resultHandler, if_neg hrid, hfound]
  have habsent : mfind rid (mdel rid tbl) = none := mfind_mdel_self rid tbl
  refine ⟨?_, ?_, ?_, ?_, ?_, ?_, ?_, ?_, ?_, ?_⟩
  · simp only [resultHandler, if_neg hrid, hfound]
    by_cases h₁ : p.hasRes <;> by_cases h₂ : hasError <;>
      simp [h₁, h₂, isFinalization]
  · rw [hres]
    exact habsent
  · rw [hres]
    simp [expressTimeout, habsent]
  · rw [hres]
    simp [promiseTimeout, habsent]
  · simp [expressTimeout, hfound, isFinalization]
  · simp [expressTimeout, hfound, habsent]
  · simp [expressTimeout, hfound, resultHandler, if_neg hrid, habsent]
  · simp [promiseTimeout, hfound, isFinalization]
  · simp [promiseTimeout, hfound, habsent]
  · simp [promiseTimeout, hfound, resultHandler, if_neg hrid, habsent]

/-- Witness for C1 on a one-entry table: the result handler finalizes once
and the subsequent express timeout is a no-op. -/
theorem pending_exactly_once_witness :
    (((resultHandler "rolls_100" false [("rolls_100", samplePending)]).2.filter
      isFinalization).length = 1) ∧
    (expressTimeout "rolls_100"
        (resultHandler "rolls_100" false [("rolls_100", samplePending)]).1 =
      ((resultHandler "rolls_100" false [("rolls_100", samplePending)]).1, [])) :=
  ⟨(pending_exactly_once "rolls_100" false [("rolls_100", samplePending)]
      samplePending (by decide) (by decide)).1,
   (pending_exactly_once "rolls_100" false [("rolls_100", samplePending)]
      samplePending (by decide) (by decide)).2.2.1⟩

/-- C4: in both originating paths the entry is in the table at the moment
`send` is invoked (for `sendClientRequest`, whenever the type is a pending
type), and a failed send deletes the just-registered entry and fails the
call, leaving no orphaned entry under the requestId. -/
theorem send_phase_no_orphan (tbl : List (String × PendingRequest))
    (rid : String) (entry : PendingRequest) (sent : Bool)
    (pendingTypes : List String) (rtype : String) :
    (mfind rid (createApiRouteSend tbl rid entry sent).tableAtSend =
      some entry) ∧
    (sent = false →
      mfind rid (createApiRouteSend tbl rid entry sent).finalTable = none ∧
      (createApiRouteSend tbl rid entry sent).failed = true) ∧
    (rtype ∈ pendingTypes →
      mfind rid
        (sendClientRequestSend pendingTypes tbl rtype rid entry sent).tableAtSend =
      some entry) ∧
    (sent = false → rtype ∈ pendingTypes →
      mfind rid
        (sendClientRequestSend pendingTypes tbl rtype rid entry sent).finalTable =
        none ∧
      (sendClientRequestSend pendingTypes tbl rtype rid entry sent).failed =
        true) ∧
    (sent = false → rtype ∉ pendingTypes →
      (sendClientRequestSend pendingTypes tbl rtype rid entry sent).finalTable =
        tbl ∧
      (sendClientRequestSend pendingTypes tbl rtype rid entry sent).failed =
        true) := by
  refine ⟨?_, ?_, ?_, ?_, ?_⟩
  · cases sent <;> simp [createApiRouteSend, mfind_mset_self]
  · rintro rfl
    simp [createApiRouteSend, mfind_mdel_self]
  · intro hp
    cases sent <;> simp [sendClientRequestSend, hp, mfind_mset_self]
  · rintro rfl hp
    simp [sendClientRequestSend, hp, mfind_mdel_self]
  · rintro rfl hp
    simp [sendClientRequestSend, hp]

/-- Witness for C4: with an empty table, a failed send of a pending-type
request leaves the table without the requestId and marks the call failed. -/
theorem send_phase_no_orphan_witness :
    (mfind "rolls_100"
      (createApiRouteSend [] "rolls_100" samplePending false).finalTable =
      none) ∧
    (mfind "rolls_100"
      (sendClientRequestSend ["rolls"] [] "rolls" "rolls_100" samplePending
        false).finalTable = none) :=
  ⟨((send_phase_no_orphan [] "rolls_100" samplePending false ["rolls"]
      "rolls").2.1 rfl).1,
   ((send_phase_no_orphan [] "rolls_100" samplePending false ["rolls"]
      "rolls").2.2.2.1 rfl (by decide)).1⟩

/-- C9: two same-type calls in the same millisecond share one requestId, so
the second registration overwrites the first entirely (`Map.set` on the same
key), the table then yields the second entry, and the first entry — if it was
not already stored elsewhere — can no longer be found under any key. -/
theorem requestId_collision_overwrites (rtype : String) (nowMs : Nat)
    (tbl : List (String × PendingRequest)) (e₁ e₂ : PendingRequest)
    (hfresh : e₁ ∉ tbl.map Prod.snd) :
    (mset (genRequestId rtype nowMs) e₂
        (mset (genRequestId rtype nowMs) e₁ tbl) =
      mset (genRequestId rtype nowMs) e₂ tbl) ∧
    (mfind (genRequestId rtype nowMs)
        (mset (genRequestId rtype nowMs) e₂
          (mset (genRequestId rtype nowMs) e₁ tbl)) = some e₂) ∧
    (e₁ ≠ e₂ → ∀ k, mfind k (mset (genRequestId rtype nowMs) e₂
        (mset (genRequestId rtype nowMs) e₁ tbl)) ≠ some e₁) := by
  refine ⟨mset_mset_self _ e₁ e₂ tbl, ?_, ?_⟩
  · rw [mset_mset_self]
    exact mfind_mset_self _ e₂ tbl
  · intro hne k hk
    rw [mset_mset_self] at hk
    rcases values_mset_subset _ e₂ e₁ tbl (mfind_mem_values k e₁ _ hk) with
      h | h
    · exact hne h
    · exact hfresh h

/-- Witness for C9: on an empty table, registering two distinct entries under
the colliding id `rolls_100` leaves only the second findable. -/
theorem requestId_collision_overwrites_witness :
    mfind (genRequestId "rolls" 100)
        (mset (genRequestId "rolls" 100) ⟨false, "rolls", "c2", 101⟩
          (mset (genRequestId "rolls" 100) samplePending [])) =
      some ⟨false, "rolls", "c2", 101⟩ ∧
    ¬ mfind "rolls_100"
        (mset (genRequestId "rolls" 100) ⟨false, "rolls", "c2", 101⟩
          (mset (genRequestId "rolls" 100) samplePending [])) =
      some samplePending :=
  ⟨(requestId_collision_overwrites "rolls" 100 [] samplePending
      ⟨false, "rolls", "c2", 101⟩ (by decide)).2.1,
   (requestId_collision_overwrites "rolls" 100 [] samplePending
      ⟨false, "rolls", "c2", 101⟩ (by decide)).2.2 (by decide) "rolls_100"⟩

theorem mfind_eq_none_of_key_not_mem (rid : String) (l : List (String × α))
    (h : rid ∉ l.map Prod.fst) : mfind rid l = none := by
  induction l with
  | nil => rfl
  | cons e rest ih =>
    obtain ⟨k, v⟩ := e
    simp only [List.map_cons, List.mem_cons] at h
    push_neg at h
    simp [mfind, Ne.symm h.1, ih h.2]

theorem keys_filter_subset (rid : String) (q : String × α → Bool)
    (l : List (String × α)) (h : rid ∈ (l.filter q).map Prod.fst) :
    rid ∈ l.map Prod.fst := by
  rw [List.mem_map] at h
  obtain ⟨e, he, hfst⟩ := h
  exact hfst ▸ List.mem_map_of_mem Prod.fst (List.mem_of_mem_filter he)

theorem mfind_filter_of_dropped (rid : String) (p : α)
    (q : String × α → Bool) (tbl : List (String × α))
    (hnd : (tbl.map Prod.fst).Nodup) (h : mfind rid tbl = some p)
    (hq : q (rid, p) = false) : mfind rid (tbl.filter q) = none := by
  induction tbl with
  | nil => simp [mfind] at h
  | cons e rest ih =>
    obtain ⟨k, v⟩ := e
    simp only [List.map_cons, List.nodup_cons] at hnd
    obtain ⟨hk, hrest⟩ := hnd
    by_cases hkr : k = rid
    · subst hkr
      have hv : v = p := by simpa [mfind] using h
      subst hv
      rw [List.filter_cons]
      simp only [hq, Bool.false_eq_true, if_false]
      exact mfind_eq_none_of_key_not_mem k (rest.filter q)
        (fun hmem => hk (keys_filter_subset k q rest hmem))
    · have h₂ : mfind rid rest = some p := by simpa [mfind, hkr] using h
      rw [List.filter_cons]
      by_cases hqk : q (k, v) = true
      · simp only [hqk, if_true]
        simp only [mfind, if_neg hkr]
        exact ih hrest h₂
      · simp only [hqk, Bool.false_eq_true, if_false]
        exact ih hrest h₂

theorem mfind_filter_of_kept (rid : String) (p : α) (q : String × α → Bool)
    (tbl : List (String × α)) (h : mfind rid tbl = some p)
    (hq : q (rid, p) = true) : mfind rid (tbl.filter q) = some p := by
  induction tbl with
  | nil => simp [mfind] at h
  | cons e rest ih =>
    obtain ⟨k, v⟩ := e
    by_cases hkr : k = rid
    · subst hkr
      have hv : v = p := by simpa [mfind] using h
      subst hv
      rw [List.filter_cons]
      simp [hq, mfind]
    · have h₂ : mfind rid rest = some p := by simpa [mfind, hkr] using h
      rw [List.filter_cons]
      by_cases hqk : q (k, v) = true
      · simp only [hqk, if_true]
        simp only [mfind, if_neg hkr]
        exact ih h₂
      · simp only [hqk, Bool.false_eq_true, if_false]
        exact ih h₂

theorem sweepOnce_fst (now : Int) (tbl : List (String × PendingRequest)) :
    (sweepOnce now tbl).1 =
      tbl.filter (fun e => now - e.2.timestamp ≤ 30000) := by
  induction tbl with
  | nil => rfl
  | cons e rest ih =>
    by_cases hc : now - e.2.timestamp > 30000
    · have h₁ : (sweepOnce now (e :: rest)).1 = (sweepOnce now rest).1 := by
        simp [sweepOnce, hc]
      have hd : (decide (now - e.2.timestamp ≤ 30000)) = false :=
        decide_eq_false (not_le.mpr hc)
      rw [h₁, List.filter_cons, ih]
      simp only [hd, Bool.false_eq_true, if_false]
    · have h₁ : (sweepOnce now (e :: rest)).1 =
          e :: (sweepOnce now rest).1 := by
        simp [sweepOnce, hc]
      have hd : (decide (now - e.2.timestamp ≤ 30000)) = true :=
        decide_eq_true (not_lt.mp hc)
      rw [h₁, List.filter_cons, ih]
      simp only [hd, if_true]

theorem sweepOnce_no_finalization (now : Int)
    (tbl : List (String × PendingRequest)) :
    (sweepOnce now tbl).2.filter isFinalization = [] := by
  induction tbl with
  | nil => rfl
  | cons e rest ih =>
    by_cases hc : now - e.2.timestamp > 30000 <;>
      simp [sweepOnce, hc, List.filter_cons, isFinalization, ih]

/-- C10: the sweep deletes exactly the entries whose timestamp is more than
30000 ms old, emits no finalization effect while doing so (no stored sink,
resolve, or reject is invoked), and a waiter evicted this way can never be
finalized afterwards: the result handler and both timeout shapes find the id
absent and no-op.  Fresh entries are kept untouched. -/
theorem sweep_never_finalizes (now : Int) (tbl : List (String × PendingRequest))
    (hnd : (tbl.map Prod.fst).Nodup) :
    ((sweepOnce now tbl).1 =
      tbl.filter (fun e => now - e.2.timestamp ≤ 30000)) ∧
    ((sweepOnce now tbl).2.filter isFinalization = []) ∧
    (∀ rid p, mfind rid tbl = some p → now - p.timestamp > 30000 →
      mfind rid (sweepOnce now tbl).1 = none ∧
      (∀ hasError, resultHandler rid hasError (sweepOnce now tbl).1 =
        ((sweepOnce now tbl).1, [])) ∧
      (expressTimeout rid (sweepOnce now tbl).1 = ((sweepOnce now tbl).1, [])) ∧
      (promiseTimeout rid (sweepOnce now tbl).1 = ((sweepOnce now tbl).1, []))) ∧
    (∀ rid p, mfind rid tbl = some p → now - p.timestamp ≤ 30000 →
      mfind rid (sweepOnce now tbl).1 = some p) := by
  refine ⟨sweepOnce_fst now tbl, sweepOnce_no_finalization now tbl, ?_, ?_⟩
  · intro rid p hfound hold
    have hnone : mfind rid (sweepOnce now tbl).1 = none := by
      rw [sweepOnce_fst]
      exact mfind_filter_of_dropped rid p _ tbl hnd hfound
        (by simp [not_le.mpr hold])
    refine ⟨hnone, ?_, ?_, ?_⟩
    · intro hasError
      by_cases hrid : rid = ""
      · simp [resultHandler, hrid]
      · simp [resultHandler, hrid, hnone]
    · simp [expressTimeout, hnone]
    · simp [promiseTimeout, hnone]
  · intro rid p hfound hfresh
    rw [sweepOnce_fst]
    exact mfind_filter_of_kept rid p _ tbl hfound (by simp [hfresh])

/-- Witness for C10: a 100 ms-old entry swept at t = 40000 is evicted with no
finalization effect. -/
theorem sweep_never_finalizes_witness :
    ((sweepOnce 40000 [("rolls_100", samplePending)]).2.filter
      isFinalization = []) ∧
    (mfind "rolls_100" (sweepOnce 40000 [("rolls_100", samplePending)]).1 =
      none) :=
  ⟨(sweep_never_finalizes 40000 [("rolls_100", samplePending)]
      (by decide)).2.1,
   ((sweep_never_finalizes 40000 [("rolls_100", samplePending)]
      (by decide)).2.2.1 "rolls_100" samplePending (by decide) (by decide)).1⟩

/-- C7: `Client.send` is total (the write sits in a `try`/`catch`, so the
method only ever returns a boolean): it returns `true` exactly when the
client is alive and the write succeeds, returns `false` untouched when not
alive, marks the client disconnected on a write failure, and after such a
failure every subsequent send on the same client returns `false`
immediately. -/
theorem clientSend_never_throws (c : ClientData) (w : Bool) :
    ((clientSend c w).2 = (clientIsAlive c && w)) ∧
    (clientIsAlive c = false → clientSend c w = (c, false)) ∧
    (clientIsAlive c = true → (clientSend c false).1.connected = false) ∧
    (∀ w₂, clientSend (clientSend c false).1 w₂ =
      ((clientSend c false).1, false)) := by
  refine ⟨clientSend_snd c w, ?_, fun h => clientSend_fail_not_connected c h,
    fun w₂ => clientSend_after_fail c w₂⟩
  intro h
  simp [clientSend, h]

/-- Witness for C7: a send on a dead client returns false and a failing
write on a live client marks it disconnected. -/
theorem clientSend_never_throws_witness :
    clientSend sampleDeadClient true = (sampleDeadClient, false) ∧
    (clientSend sampleClient false).1.connected = false :=
  ⟨(clientSend_never_throws sampleDeadClient true).2.1 (by decide),
   (clientSend_never_throws sampleClient false).2.2.1 (by decide)⟩

/-- Counterexample to C8 as stated: the missing-identity rejection and the
bad-secret rejection both close with status code 1008, so the three
admission-failure reasons do not use pairwise distinct codes. -/
theorem ws_close_codes_not_distinct :
    wsConnectionDecision none (some "secret") "secret" false =
      some (1008, "Missing client ID or token") ∧
    wsConnectionDecision (some "c1") (some "wrong") "secret" false =
      some (1008, "Invalid API Key") := by
  decide

/-- C8 as amended: missing identity and bad secret both close with 1008,
distinguished only by their reason strings; only the duplicate-id rejection
uses a distinct status code, 4004. -/
theorem ws_close_codes_amended (id token : Option String) (key : String)
    (dup : Bool) :
    ((id.getD "" = "" ∨ token.getD "" = "") →
      wsConnectionDecision id token key dup =
        some (1008, "Missing client ID or token")) ∧
    (¬(id.getD "" = "" ∨ token.getD "" = "") → key ≠ token.getD "" →
      wsConnectionDecision id token key dup =
        some (1008, "Invalid API Key")) ∧
    (¬(id.getD "" = "" ∨ token.getD "" = "") → key = token.getD "" →
      dup = true →
      wsConnectionDecision id token key dup =
        some (4004, "Client ID already connected")) ∧
    ((4004 : Nat) ≠ 1008) ∧
    ("Missing client ID or token" ≠ "Invalid API Key") ∧
    ("Missing client ID or token" ≠ "Client ID already connected") ∧
    ("Invalid API Key" ≠ "Client ID already connected") := by
  refine ⟨?_, ?_, ?_, by decide, by decide, by decide, by decide⟩
  · intro h
    simp [wsConnectionDecision, h]
  · intro h hk
    simp [wsConnectionDecision, h, hk]
  · rintro h hk rfl
    simp [wsConnectionDecision, h, hk]

/-- Witness for C8 (amended): concrete rejections for a missing id and for a
duplicate id carry codes 1008 and 4004 respectively. -/
theorem ws_close_codes_amended_witness :
    wsConnectionDecision none (some "s") "s" false =
      some (1008, "Missing client ID or token") ∧
    wsConnectionDecision (some "c1") (some "s") "s" true =
      some (4004, "Client ID already connected") :=
  ⟨(ws_close_codes_amended none (some "s") "s" false).1 (by decide),
   (ws_close_codes_amended (some "c1") (some "s") "s" true).2.2.1
     (by decide) (by decide) rfl⟩

end FvttMcp